import Mathlib

/-!
Verification of the CryptoBookKeeper normalization and incremental-sync engine.

The definitions below are a shallow embedding of the Python sources:
`scripts/stage_duckdb.py` (DuckDB raw store with INSERT OR REPLACE upserts),
`scripts/export_debank.py` (on-chain normalizer, sync watermark, CSV
partition merge), and `scripts/export_exchanges.py` (exchange normalizers,
timestamp and amount coercion, per-currency transfer probing).
-/

namespace CryptoBookKeeper

/-! ## Merge/Upsert store (stage_duckdb.py, INSERT OR REPLACE)

DuckDB's INSERT OR REPLACE deletes any existing row whose primary key equals
the incoming row's key and inserts the incoming row.  A batch insert applies
this row by row in batch order, so a later in-batch row with the same key
replaces an earlier one.  We model a table as a list of rows and the primary
key as an arbitrary function into a decidable-equality type, instantiated
below with the concrete keys used by `load_onchain_data`
(chain, tx_hash, log_index) and `load_exchange_data` (source, txid). -/

variable {κ ρ : Type} [DecidableEq κ]

/-- One INSERT OR REPLACE of a single row: drop any stored row with the same
primary key, then append the new row. -/
def upsertBy (key : ρ → κ) (S : List ρ) (r : ρ) : List ρ :=
  (S.filter (fun p => decide (key p ≠ key r))) ++ [r]

/-- Loading a batch into the raw store: INSERT OR REPLACE applied row by row
in batch order (`INSERT OR REPLACE INTO t SELECT ... FROM temp_df`). -/
def loadBatch (key : ρ → κ) (S : List ρ) (B : List ρ) : List ρ :=
  B.foldl (upsertBy key) S

theorem mem_upsertBy (key : ρ → κ) (S : List ρ) (r p : ρ)
    (h : p ∈ upsertBy key S r) : p ∈ S ∨ p = r := by
  unfold upsertBy at h
  rcases List.mem_append.mp h with h1 | h1
  · exact Or.inl (List.mem_of_mem_filter h1)
  · exact Or.inr (List.mem_singleton.mp h1)

theorem mem_loadBatch (key : ρ → κ) (B : List ρ) :
    ∀ S p, p ∈ loadBatch key S B → p ∈ S ∨ p ∈ B := by
  induction B with
  | nil => intro S p h; exact Or.inl h
  | cons r B ih =>
      intro S p h
      rcases ih (upsertBy key S r) p h with h1 | h1
      · rcases mem_upsertBy key S r p h1 with h2 | h2
        · exact Or.inl h2
        · exact Or.inr (by simp [h2])
      · exact Or.inr (List.mem_cons_of_mem r h1)

theorem loadBatch_eq_filter_append (key : ρ → κ) (B : List ρ) :
    ∀ S : List ρ, loadBatch key S B =
      S.filter (fun p => decide (key p ∉ B.map key)) ++ loadBatch key [] B := by
  induction B with
  | nil =>
      intro S
      simp [loadBatch]
  | cons r B ih =>
      intro S
      have step : loadBatch key S (r :: B) = loadBatch key (upsertBy key S r) B := rfl
      rw [step, ih (upsertBy key S r)]
      have stepNil : loadBatch key ([] : List ρ) (r :: B) = loadBatch key [r] B := by
        simp [loadBatch, upsertBy]
      rw [stepNil, ih [r]]
      unfold upsertBy
      rw [List.filter_append, List.filter_filter, List.append_assoc]
      congr 1
      apply List.filter_congr
      intro p _
      simp only [List.map_cons, List.mem_cons, decide_not]
      cases hkr : decide (key p = key r) with
      | true => simp [of_decide_eq_true hkr]
      | false => simp [of_decide_eq_false hkr]

theorem filter_loadBatch_nil (key : ρ → κ) (B : List ρ) :
    (loadBatch key [] B).filter (fun p => decide (key p ∉ B.map key)) = [] := by
  rw [List.filter_eq_nil_iff]
  intro p hp
  rcases mem_loadBatch key B [] p hp with h | h
  · cases h
  · simp [List.mem_map]
    exact ⟨p, h, rfl⟩

theorem loadBatch_idem (key : ρ → κ) (S B : List ρ) :
    loadBatch key (loadBatch key S B) B = loadBatch key S B := by
  conv_lhs => rw [loadBatch_eq_filter_append key B (loadBatch key S B),
    loadBatch_eq_filter_append key B S]
  rw [List.filter_append, List.filter_filter]
  rw [filter_loadBatch_nil key B]
  conv_rhs => rw [loadBatch_eq_filter_append key B S]
  rw [List.append_nil]
  congr 1
  apply List.filter_congr
  intro p _
  cases h : decide (key p ∉ B.map key) <;> simp [h]

theorem keys_upsertBy_nodup (key : ρ → κ) (S : List ρ) (r : ρ)
    (h : (S.map key).Nodup) : ((upsertBy key S r).map key).Nodup := by
  unfold upsertBy
  rw [List.map_append, List.map_singleton]
  apply List.Nodup.append
  · exact List.Nodup.sublist (List.Sublist.map key (List.filter_sublist S)) h
  · exact List.nodup_singleton _
  · intro k hk1 hk2
    rcases List.mem_map.mp hk1 with ⟨p, hp, hpk⟩
    have hne : key p ≠ key r := of_decide_eq_true (List.mem_filter.mp hp).2
    rw [List.mem_singleton] at hk2
    exact hne (by rw [hpk, hk2])

theorem keys_loadBatch_nodup (key : ρ → κ) (B : List ρ) :
    ∀ S : List ρ, (S.map key).Nodup → ((loadBatch key S B).map key).Nodup := by
  induction B with
  | nil => intro S h; exact h
  | cons r B ih =>
      intro S h
      exact ih (upsertBy key S r) (keys_upsertBy_nodup key S r h)

theorem mem_keys_loadBatch (key : ρ → κ) (B : List ρ) :
    ∀ (S : List ρ) (k : κ), k ∈ (loadBatch key S B).map key ↔
      k ∈ S.map key ∨ k ∈ B.map key := by
  induction B with
  | nil => intro S k; simp [loadBatch]
  | cons r B ih =>
      intro S k
      have step : loadBatch key S (r :: B) = loadBatch key (upsertBy key S r) B := rfl
      rw [step, ih (upsertBy key S r) k]
      unfold upsertBy
      constructor
      · rintro (h | h)
        · rw [List.map_append, List.mem_append] at h
          rcases h with h | h
          · rcases List.mem_map.mp h with ⟨p, hp, hpk⟩
            exact Or.inl (List.mem_map.mpr ⟨p, List.mem_of_mem_filter hp, hpk⟩)
          · rw [List.map_singleton, List.mem_singleton] at h
            exact Or.inr (by simp [h])
        · exact Or.inr (by simp [h])
      · rintro (h | h)
        · by_cases hkr : k = key r
          · left
            rw [List.map_append, List.mem_append]
            right
            simp [hkr]
          · left
            rw [List.map_append, List.mem_append]
            left
            rcases List.mem_map.mp h with ⟨p, hp, hpk⟩
            refine List.mem_map.mpr ⟨p, List.mem_filter.mpr ⟨hp, ?_⟩, hpk⟩
            exact decide_eq_true (fun hc => hkr (hpk ▸ hc ▸ rfl))
        · rw [List.map_cons, List.mem_cons] at h
          rcases h with h | h
          · left
            rw [List.map_append, List.mem_append]
            right
            simp [h]
          · exact Or.inr h

theorem length_loadBatch_of_nodup (key : ρ → κ) (S B : List ρ)
    (h : (S.map key).Nodup) :
    (loadBatch key S B).length = ((S.map key ++ B.map key).dedup).length := by
  have hnd : ((loadBatch key S B).map key).Nodup := keys_loadBatch_nodup key B S h
  have h1 : (loadBatch key S B).length = ((loadBatch key S B).map key).length :=
    (List.length_map _ _).symm
  have h2 : ((loadBatch key S B).map key).length =
      ((loadBatch key S B).map key).dedup.length := by
    rw [List.Nodup.dedup hnd]
  have h3 : ((loadBatch key S B).map key).dedup.length =
      ((loadBatch key S B).map key).toFinset.card := (List.card_toFinset _).symm
  have h4 : ((loadBatch key S B).map key).toFinset =
      (S.map key ++ B.map key).toFinset := by
    apply Finset.ext
    intro k
    rw [List.mem_toFinset, List.mem_toFinset, List.mem_append]
    exact mem_keys_loadBatch key B S k
  rw [h1, h2, h3, h4, List.card_toFinset]

/-! ## Keep-first deduplication (pandas drop_duplicates)

`export_debank.py` merges a new monthly group into an existing CSV partition
with `pd.concat([existing_df, group]).drop_duplicates(subset=['tx_hash'])`.
pandas `drop_duplicates` keeps the FIRST occurrence of each key.  We model it
with an accumulator of already-seen keys. -/

/-- Keep each row whose key has not been seen yet, scanning left to right. -/
def dedupKeepFirstAux (key : ρ → κ) (seen : List κ) : List ρ → List ρ
  | [] => []
  | r :: rest =>
      if key r ∈ seen then dedupKeepFirstAux key seen rest
      else r :: dedupKeepFirstAux key (key r :: seen) rest

/-- pandas `drop_duplicates(subset=[key])`: keep the first row per key. -/
def dedupKeepFirstBy (key : ρ → κ) (L : List ρ) : List ρ :=
  dedupKeepFirstAux key [] L

/-- First stored row whose key is `k` (the row a SQL/pandas key lookup sees). -/
def findByKey (key : ρ → κ) (L : List ρ) (k : κ) : Option ρ :=
  L.find? (fun r => decide (key r = k))

theorem mem_dedupKeepFirstAux (key : ρ → κ) (L : List ρ) :
    ∀ (seen : List κ) (p : ρ), p ∈ dedupKeepFirstAux key seen L → p ∈ L := by
  induction L with
  | nil => intro seen p h; cases h
  | cons r rest ih =>
      intro seen p h
      unfold dedupKeepFirstAux at h
      by_cases hs : key r ∈ seen
      · rw [if_pos hs] at h
        exact List.mem_cons_of_mem r (ih seen p h)
      · rw [if_neg hs] at h
        rcases List.mem_cons.mp h with h1 | h1
        · simp [h1]
        · exact List.mem_cons_of_mem r (ih (key r :: seen) p h1)

theorem keys_dedupKeepFirstAux_nodup (key : ρ → κ) (L : List ρ) :
    ∀ seen : List κ, ((dedupKeepFirstAux key seen L).map key).Nodup ∧
      ∀ k ∈ (dedupKeepFirstAux key seen L).map key, k ∉ seen := by
  induction L with
  | nil => intro seen; simp [dedupKeepFirstAux]
  | cons r rest ih =>
      intro seen
      unfold dedupKeepFirstAux
      by_cases hs : key r ∈ seen
      · rw [if_pos hs]
        exact ih seen
      · rw [if_neg hs]
        rcases ih (key r :: seen) with ⟨hnd, hout⟩
        constructor
        · rw [List.map_cons, List.nodup_cons]
          refine ⟨fun hc => ?_, hnd⟩
          exact (hout (key r) hc) (List.mem_cons_self _ _)
        · intro k hk
          rw [List.map_cons, List.mem_cons] at hk
          rcases hk with hk | hk
          · rw [hk]; exact hs
          · intro hc
            exact (hout k hk) (List.mem_cons_of_mem _ hc)

theorem findByKey_dedupKeepFirstAux (key : ρ → κ) (L : List ρ) :
    ∀ (seen : List κ) (k : κ), k ∉ seen →
      findByKey key (dedupKeepFirstAux key seen L) k = findByKey key L k := by
  induction L with
  | nil => intro seen k _; rfl
  | cons r rest ih =>
      intro seen k hk
      unfold dedupKeepFirstAux
      by_cases hs : key r ∈ seen
      · rw [if_pos hs]
        have hkr : ¬ (key r = k) := fun hc => hk (hc ▸ hs)
        have hfind : findByKey key (r :: rest) k = findByKey key rest k := by
          unfold findByKey
          rw [List.find?_cons]
          simp [hkr]
        rw [hfind]
        exact ih seen k hk
      · rw [if_neg hs]
        by_cases hkr : key r = k
        · unfold findByKey
          rw [List.find?_cons, List.find?_cons]
          simp [hkr]
        · have h1 : findByKey key (r :: dedupKeepFirstAux key (key r :: seen) rest) k =
              findByKey key (dedupKeepFirstAux key (key r :: seen) rest) k := by
            unfold findByKey
            rw [List.find?_cons]
            simp [hkr]
          have h2 : findByKey key (r :: rest) k = findByKey key rest k := by
            unfold findByKey
            rw [List.find?_cons]
            simp [hkr]
          rw [h1, h2]
          apply ih (key r :: seen) k
          intro hc
          rcases List.mem_cons.mp hc with hc | hc
          · exact hkr hc.symm
          · exact hk hc

theorem findByKey_dedupKeepFirstBy (key : ρ → κ) (L : List ρ) (k : κ) :
    findByKey key (dedupKeepFirstBy key L) k = findByKey key L k :=
  findByKey_dedupKeepFirstAux key L [] k (List.not_mem_nil k)

theorem keys_dedupKeepFirstBy_nodup (key : ρ → κ) (L : List ρ) :
    ((dedupKeepFirstBy key L).map key).Nodup :=
  (keys_dedupKeepFirstAux_nodup key L []).1

theorem findByKey_append (key : ρ → κ) (L1 L2 : List ρ) (k : κ) :
    findByKey key (L1 ++ L2) k =
      ((findByKey key L1 k).or (findByKey key L2 k)) := by
  induction L1 with
  | nil => simp [findByKey]
  | cons r rest ih =>
      unfold findByKey at ih ⊢
      rw [List.cons_append, List.find?_cons, List.find?_cons]
      by_cases hkr : key r = k
      · simp [hkr]
      · simp only [hkr, decide_False]
        exact ih

/-! ## On-chain normalizer (export_debank.py, DeBankExporter.normalize_transaction)

A DeBank raw transaction carries outgoing legs (`sends`), incoming legs
(`receives`), an optional approval grant (`token_approve`), a category hint
(`cate_id`) and tx-level from/to addresses.  Token metadata resolution
(`get_token_info`, with its cache and placeholder fallback) is abstracted as
a function from (token_id, chain) to metadata, since its outcome is fixed
within one run. -/

/-- Resolved token metadata (symbol, name, decimals). -/
structure TokenInfo where
  symbol : String
  name : String
  decimals : Int
deriving DecidableEq

/-- One transfer leg of a DeBank transaction (an entry of `sends`/`receives`).
`to_addr`/`from_addr` are `none` when the key is absent in the payload. -/
structure Leg where
  token_id : String
  amount : ℚ
  to_addr : Option String
  from_addr : Option String
deriving DecidableEq

/-- A DeBank `token_approve` object. -/
structure TokenApprove where
  token_id : String
  value : ℚ
  spender : Option String
deriving DecidableEq

/-- A raw DeBank history entry.  `time_at` of 0 models a missing/zero
timestamp (`tx.get('time_at', 0)` followed by a truthiness check);
`cate_id` is `none` when absent. -/
structure RawTx where
  id : String
  time_at : Nat
  cate_id : Option String
  chain : String
  sends : List Leg
  receives : List Leg
  token_approve : Option TokenApprove
  tx_from : String
  tx_to : String
  is_scam : Bool
deriving DecidableEq

/-- The normalized on-chain record returned by `normalize_transaction`.
`block_timestamp` holds the epoch seconds (`None` when `time_at` was falsy);
`log_index` is the raw value placed in the dict (always `None` in the code). -/
structure NormalizedTx where
  tx_hash : String
  log_index : Option Int
  contract_address : String
  from_address : String
  to_address : String
  value : ℚ
  token_symbol : String
  token_decimal : Int
  block_timestamp : Option Nat
  chain : String
  tx_type : String
  side : String
deriving DecidableEq

/-- `abs(amount) if amount else 0`. -/
def absOrZero (a : ℚ) : ℚ := if a ≠ 0 then |a| else 0

theorem absOrZero_eq_abs (a : ℚ) : absOrZero a = |a| := by
  unfold absOrZero
  by_cases h : a = 0
  · simp [h]
  · simp [h]

theorem absOrZero_nonneg (a : ℚ) : 0 ≤ absOrZero a := by
  rw [absOrZero_eq_abs]; exact abs_nonneg a

/-- Token symbol and decimals used by `normalize_transaction`: resolved only
when the leg's token id is truthy (`if token_id:`), otherwise the initial
defaults (empty symbol, 18 decimals) survive. -/
def resolveFields (resolve : String → String → TokenInfo) (chain token_id : String) :
    String × Int :=
  if token_id ≠ "" then ((resolve token_id chain).symbol, (resolve token_id chain).decimals)
  else ("", 18)

/-- `ts_utc`: the epoch seconds kept when `time_at` is truthy. -/
def tsOf (tx : RawTx) : Option Nat :=
  if tx.time_at ≠ 0 then some tx.time_at else none

/-- Shallow embedding of `DeBankExporter.normalize_transaction`.  The branch
order matches the source: approve first (category hint or approval object),
then swap (both legs present), then send/deposit (outgoing only, split on the
`cate_id == 'deposit'` hint), then receive, then unknown. -/
def normalizeTransaction (resolve : String → String → TokenInfo) (tx : RawTx) :
    NormalizedTx :=
  if tx.cate_id = some "approve" ∨ tx.token_approve.isSome then
    match tx.token_approve with
    | some ta =>
        { tx_hash := tx.id
          log_index := none
          contract_address := ta.token_id
          from_address := tx.tx_from
          to_address := ta.spender.getD tx.tx_to
          value := absOrZero ta.value
          token_symbol := (resolveFields resolve tx.chain ta.token_id).1
          token_decimal := (resolveFields resolve tx.chain ta.token_id).2
          block_timestamp := tsOf tx
          chain := tx.chain
          tx_type := "approve"
          side := "approve" }
    | none =>
        { tx_hash := tx.id
          log_index := none
          contract_address := ""
          from_address := tx.tx_from
          to_address := tx.tx_to
          value := 0
          token_symbol := ""
          token_decimal := 18
          block_timestamp := tsOf tx
          chain := tx.chain
          tx_type := "approve"
          side := "approve" }
  else
    match tx.sends, tx.receives with
    | s :: _, _ :: _ =>
        { tx_hash := tx.id
          log_index := none
          contract_address := s.token_id
          from_address := tx.tx_from
          to_address := s.to_addr.getD tx.tx_to
          value := absOrZero s.amount
          token_symbol := (resolveFields resolve tx.chain s.token_id).1
          token_decimal := (resolveFields resolve tx.chain s.token_id).2
          block_timestamp := tsOf tx
          chain := tx.chain
          tx_type := "swap"
          side := "swap" }
    | s :: _, [] =>
        { tx_hash := tx.id
          log_index := none
          contract_address := s.token_id
          from_address := tx.tx_from
          to_address := s.to_addr.getD tx.tx_to
          value := absOrZero s.amount
          token_symbol := (resolveFields resolve tx.chain s.token_id).1
          token_decimal := (resolveFields resolve tx.chain s.token_id).2
          block_timestamp := tsOf tx
          chain := tx.chain
          tx_type := if tx.cate_id ≠ some "deposit" then "send" else "deposit"
          side := if tx.cate_id ≠ some "deposit" then "send" else "deposit" }
    | [], r :: _ =>
        { tx_hash := tx.id
          log_index := none
          contract_address := r.token_id
          from_address := r.from_addr.getD tx.tx_from
          to_address := tx.tx_to
          value := absOrZero r.amount
          token_symbol := (resolveFields resolve tx.chain r.token_id).1
          token_decimal := (resolveFields resolve tx.chain r.token_id).2
          block_timestamp := tsOf tx
          chain := tx.chain
          tx_type := "receive"
          side := "receive" }
    | [], [] =>
        { tx_hash := tx.id
          log_index := none
          contract_address := ""
          from_address := tx.tx_from
          to_address := tx.tx_to
          value := 0
          token_symbol := ""
          token_decimal := 18
          block_timestamp := tsOf tx
          chain := tx.chain
          tx_type := "unknown"
          side := "unknown" }

/-! ## CSV partition manager (export_debank.py, export_address_data)

Records of one run are grouped by (year, month); when the partition file
exists, `pd.concat([existing_df, group]).drop_duplicates(subset=['tx_hash'])`
is written back; otherwise the group is written as-is. -/

/-- The dedup key used by the CSV merge: `tx_hash` alone. -/
def txKey (r : NormalizedTx) : String := r.tx_hash

/-- The spec's natural key (source, external_id, log_index) of a stored CSV
row: the source of a DeBank row is derived downstream as `'debank_' || chain`
(stage_duckdb.py, create_staged_tables). -/
def naturalKey (r : NormalizedTx) : String × String × Option Int :=
  ("debank_" ++ r.chain, r.tx_hash, r.log_index)

/-- Partition update of `export_address_data`: merge-and-dedup by `tx_hash`
(existing rows first, so pandas keep-first retains the existing row on a key
conflict), or create the partition as exactly the new group. -/
def mergePartition (existing : Option (List NormalizedTx)) (group : List NormalizedTx) :
    List NormalizedTx :=
  match existing with
  | some ex => dedupKeepFirstBy txKey (ex ++ group)
  | none => group

/-! ## Staging loader rows (stage_duckdb.py) -/

/-- `_clean_onchain_data` log_index step:
`pd.to_numeric(df['log_index'], errors='coerce').fillna(0).astype(int)` maps
a missing/None value to 0. -/
def cleanLogIndex (li : Option Int) : Int := li.getD 0

/-- A cleaned row of the DuckDB `raw_onchain_transfers` table; its primary
key is (chain, tx_hash, log_index). -/
structure OnchainRow where
  chain : String
  tx_hash : String
  log_index : Int
  value : ℚ
  side : String
deriving DecidableEq

/-- Primary key of `raw_onchain_transfers`. -/
def onchainKey (r : OnchainRow) : String × String × Int :=
  (r.chain, r.tx_hash, r.log_index)

/-- The stored row a normalized DeBank record becomes after
`_clean_onchain_data` (column renames plus log_index fill). -/
def toStoredRow (n : NormalizedTx) : OnchainRow :=
  { chain := n.chain
    tx_hash := n.tx_hash
    log_index := cleanLogIndex n.log_index
    value := n.value
    side := n.side }

/-- A cleaned row of the DuckDB `raw_exchanges_*` tables; the primary key is
(source, txid). -/
structure ExchangeRawRow where
  source : String
  txid : String
  amount : ℚ
  side : String
deriving DecidableEq

/-- Primary key of the `raw_exchanges_*` tables. -/
def exchangeKey (r : ExchangeRawRow) : String × String :=
  (r.source, r.txid)

/-! ## Timestamps (export_exchanges.py, ExchangeExporter.normalize_timestamp)

All outputs carry an explicit UTC timezone (`datetime.fromtimestamp(...,
tz=timezone.utc)`), so a UTC instant is represented by its epoch seconds. -/

/-- A UTC instant (explicit timezone by construction), as epoch seconds. -/
structure UtcTimestamp where
  epochSeconds : ℚ
deriving DecidableEq

/-- Numeric branch of `normalize_timestamp`: a value above 1e10 is taken as
milliseconds and divided by 1000, otherwise as seconds. -/
def normalizeNumericTimestamp (t : ℚ) : UtcTimestamp :=
  ⟨if t > 10000000000 then t / 1000 else t⟩

/-- `normalize_timestamp` over an optional numeric input; the fallback branch
of the source returns the current time, passed here as `now`. -/
def normalizeTimestamp (now : UtcTimestamp) (t : Option ℚ) : UtcTimestamp :=
  match t with
  | some v => normalizeNumericTimestamp v
  | none => now

/-! ## Sync watermark (export_debank.py, get_last_sync_timestamp) -/

/-- Shallow embedding of `DeBankExporter.get_last_sync_timestamp`.
`hasConn`/`incremental` model `self.conn`/`self.incremental`; `query` is the
outcome of the `sync_log` lookup: an error (exception), no row, a row with a
NULL `last_sync_ts`, or a row with timestamp `t`.  The overlap window is
exactly 3600 seconds. -/
def getLastSyncTimestamp (startTs : ℚ) (hasConn incremental : Bool)
    (query : Except String (Option (Option ℚ))) : ℚ :=
  if hasConn = false ∨ incremental = false then startTs
  else
    match query with
    | .error _ => startTs
    | .ok none => startTs
    | .ok (some none) => startTs
    | .ok (some (some t)) => t - 3600

/-- `DeBankExporter.__init__` incremental flag: requested incremental mode is
kept only when the DuckDB connection succeeds, otherwise the exporter falls
back to full sync (`self.incremental = False`). -/
def initIncremental (requested connectOk : Bool) : Bool :=
  if requested then (if connectOk then true else false) else false

/-- Per-chain processing of `export_address_data`: optional scam filtering,
then (in incremental mode only) the watermark filter
`tx.get('time_at', 0) > last_sync`, then normalization of every survivor. -/
def processChain (resolve : String → String → TokenInfo)
    (filterScams incremental : Bool) (lastSync : ℚ) (txs : List RawTx) :
    List NormalizedTx :=
  let afterScams := if filterScams then txs.filter (fun tx => !tx.is_scam) else txs
  let afterSync :=
    if incremental then
      afterScams.filter (fun tx => decide ((tx.time_at : ℚ) > lastSync))
    else afterScams
  afterSync.map (normalizeTransaction resolve)

/-! ## Exchange normalizers (export_exchanges.py) -/

/-- `normalize_amount`: `None` (or an unparseable value) becomes 0.0, any
numeric value is passed through unchanged — no absolute value is taken. -/
def normalizeAmount (a : Option ℚ) : ℚ :=
  match a with
  | some v => v
  | none => 0

/-- A raw CCXT transfer (deposit or withdrawal) record; optional fields are
`none` when the key is absent.  The `fee` sub-dict is flattened into its two
used fields. -/
structure RawTransfer where
  id : String
  timestamp : Option ℚ
  currency : Option String
  amount : Option ℚ
  feeCurrency : Option String
  feeCost : Option ℚ
  address : String
  status : String
deriving DecidableEq

/-- A raw CCXT trade record. -/
structure RawTrade where
  id : String
  order : String
  timestamp : Option ℚ
  symbol : String
  side : String
  amount : Option ℚ
  price : Option ℚ
  feeCurrency : Option String
  feeCost : Option ℚ
  status : String
deriving DecidableEq

/-- The normalized exchange record written to the per-month CSV files. -/
structure ExchangeRecord where
  source : String
  exchange : String
  account : String
  txid : String
  orderid : String
  datetime : UtcTimestamp
  base : String
  quote : String
  side : String
  amount : ℚ
  price : Option ℚ
  feeCurrency : String
  feeAmount : ℚ
  address : String
  status : String
deriving DecidableEq

/-- The Coinbase per-currency deposit normalization (export_deposits, the
`exchange_name == 'coinbase'` branch): side is the constant "deposit", the
base currency falls back to the probed currency code. -/
def normalizeDepositCoinbase (exchangeName currency : String) (now : UtcTimestamp)
    (d : RawTransfer) : ExchangeRecord :=
  { source := exchangeName
    exchange := exchangeName
    account := "main"
    txid := d.id
    orderid := ""
    datetime := normalizeTimestamp now d.timestamp
    base := d.currency.getD currency
    quote := ""
    side := "deposit"
    amount := normalizeAmount d.amount
    price := some 0
    feeCurrency := d.feeCurrency.getD ""
    feeAmount := normalizeAmount d.feeCost
    address := d.address
    status := d.status }

/-- The Coinbase per-currency withdrawal normalization (export_withdrawals):
side is the constant "withdrawal". -/
def normalizeWithdrawalCoinbase (exchangeName currency : String) (now : UtcTimestamp)
    (w : RawTransfer) : ExchangeRecord :=
  { source := exchangeName
    exchange := exchangeName
    account := "main"
    txid := w.id
    orderid := ""
    datetime := normalizeTimestamp now w.timestamp
    base := w.currency.getD currency
    quote := ""
    side := "withdrawal"
    amount := normalizeAmount w.amount
    price := some 0
    feeCurrency := w.feeCurrency.getD ""
    feeAmount := normalizeAmount w.feeCost
    address := w.address
    status := w.status }

/-- Trade normalization (export_trades): side verbatim from the source,
symbol decomposed on the "/" separator, amount and price coerced by
`normalize_amount`. -/
def normalizeTrade (exchangeName : String) (now : UtcTimestamp) (t : RawTrade) :
    ExchangeRecord :=
  { source := exchangeName
    exchange := exchangeName
    account := "main"
    txid := t.id
    orderid := t.order
    datetime := normalizeTimestamp now t.timestamp
    base := if t.symbol ≠ "" then (t.symbol.splitOn "/").headD "" else ""
    quote := if t.symbol ≠ "" then ((t.symbol.splitOn "/").getD 1 "") else ""
    side := t.side
    amount := normalizeAmount t.amount
    price := some (normalizeAmount t.price)
    feeCurrency := t.feeCurrency.getD ""
    feeAmount := normalizeAmount t.feeCost
    address := ""
    status := t.status }

/-- The Coinbase currency probing loop of `export_deposits`: iterate the
configured currency list, fetch that currency's deposits, and on any failure
skip just that currency (`except ... continue`), appending the normalized
records of every successful fetch. -/
def exportDepositsCoinbase (exchangeName : String) (now : UtcTimestamp)
    (fetch : String → Except String (List RawTransfer))
    (currencies : List String) : List ExchangeRecord :=
  currencies.foldl
    (fun acc c =>
      match fetch c with
      | .error _ => acc
      | .ok batch => acc ++ batch.map (normalizeDepositCoinbase exchangeName c now))
    []

/-- The Coinbase currency probing loop of `export_withdrawals`, with the same
skip-on-failure structure. -/
def exportWithdrawalsCoinbase (exchangeName : String) (now : UtcTimestamp)
    (fetch : String → Except String (List RawTransfer))
    (currencies : List String) : List ExchangeRecord :=
  currencies.foldl
    (fun acc c =>
      match fetch c with
      | .error _ => acc
      | .ok batch => acc ++ batch.map (normalizeWithdrawalCoinbase exchangeName c now))
    []

/-! ## Helper lemmas tying tx_hash uniqueness to natural-key uniqueness -/

theorem nodup_naturalKey_of_nodup_txKey (L : List NormalizedTx)
    (h : (L.map txKey).Nodup) : (L.map naturalKey).Nodup := by
  have heq : L.map txKey = (L.map naturalKey).map (fun p => p.2.1) := by
    rw [List.map_map]; rfl
  rw [heq] at h
  exact h.of_map _

/-! ## Claims -/

/-- Claim C1: the merge/upsert step is idempotent — for every store state and
every batch, loading the batch twice via INSERT OR REPLACE (keyed on the
table's primary key, for both the on-chain and the exchange raw tables)
leaves exactly the stored state of loading it once, and the resulting row
count equals the number of distinct primary keys among the prior store and
the batch, so repeated overlapping ingestion never grows the store beyond
the distinct keys. -/
theorem claim_C1_upsert_idempotent (S B : List OnchainRow)
    (S2 B2 : List ExchangeRawRow) :
    (loadBatch onchainKey (loadBatch onchainKey S B) B = loadBatch onchainKey S B) ∧
    (loadBatch exchangeKey (loadBatch exchangeKey S2 B2) B2 = loadBatch exchangeKey S2 B2) ∧
    ((S.map onchainKey).Nodup →
      (loadBatch onchainKey S B).length =
        ((S.map onchainKey ++ B.map onchainKey).dedup).length) ∧
    ((S2.map exchangeKey).Nodup →
      (loadBatch exchangeKey S2 B2).length =
        ((S2.map exchangeKey ++ B2.map exchangeKey).dedup).length) := by
  refine ⟨loadBatch_idem onchainKey S B, loadBatch_idem exchangeKey S2 B2, ?_, ?_⟩
  · intro h
    exact length_loadBatch_of_nodup onchainKey S B h
  · intro h
    exact length_loadBatch_of_nodup exchangeKey S2 B2 h

/-- Concrete sample rows used by the witnesses and counterexamples below. -/
def rowA : OnchainRow :=
  { chain := "eth", tx_hash := "0xa", log_index := 0, value := 1, side := "send" }

def rowA2 : OnchainRow :=
  { chain := "eth", tx_hash := "0xa", log_index := 0, value := 2, side := "send" }

def rowB : OnchainRow :=
  { chain := "eth", tx_hash := "0xb", log_index := 0, value := 3, side := "receive" }

def exRowA : ExchangeRawRow :=
  { source := "kraken", txid := "t1", amount := 4, side := "buy" }

def exRowA2 : ExchangeRawRow :=
  { source := "kraken", txid := "t1", amount := 5, side := "buy" }

theorem claim_C1_witness :
    ([rowA].map onchainKey).Nodup ∧
    (loadBatch onchainKey (loadBatch onchainKey [rowA] [rowA2, rowB]) [rowA2, rowB] =
      loadBatch onchainKey [rowA] [rowA2, rowB]) ∧
    (loadBatch onchainKey [rowA] [rowA2, rowB]).length =
      (([rowA].map onchainKey ++ [rowA2, rowB].map onchainKey).dedup).length ∧
    (loadBatch exchangeKey [exRowA] [exRowA2]).length =
      (([exRowA].map exchangeKey ++ [exRowA2].map exchangeKey).dedup).length := by
  have h := claim_C1_upsert_idempotent [rowA] [rowA2, rowB] [exRowA] [exRowA2]
  exact ⟨by decide, h.1, h.2.2.1 (by decide), h.2.2.2 (by decide)⟩

/-- A normalized DeBank record used to exhibit duplicate keys in a freshly
created CSV partition. -/
def dupTx : NormalizedTx :=
  { tx_hash := "0xdup", log_index := none, contract_address := ""
    from_address := "0xf", to_address := "0xt", value := 5
    token_symbol := "ETH", token_decimal := 18
    block_timestamp := some 1700000000, chain := "eth"
    tx_type := "send", side := "send" }

/-- Claim C2 counterexample: a partition created fresh
(`group.to_csv(filepath)`) from a batch holding the same record twice stores
2 rows with only 1 distinct natural key — the fresh-creation branch performs
no deduplication, so distinct-key count and row count disagree. -/
theorem claim_C2_counterexample :
    (mergePartition none [dupTx, dupTx]).length = 2 ∧
    (((mergePartition none [dupTx, dupTx]).map naturalKey).dedup).length = 1 := by
  constructor <;> decide

/-- Claim C2 (amended): the DuckDB raw store maintains distinct primary keys
equal to the row count after any batch load; a CSV partition written through
the merge branch also satisfies distinct natural keys equal to row count
(deduplication by tx_hash); but a freshly created CSV partition equals the
incoming group verbatim, so there the equality holds only when the group
itself has no duplicate natural keys — and on a key conflict the CSV merge
keeps the existing row rather than overwriting it (only the DuckDB store
overwrites). -/
theorem claim_C2_no_duplicate_keys (S B : List OnchainRow)
    (ex g g2 : List NormalizedTx) :
    ((S.map onchainKey).Nodup →
      (((loadBatch onchainKey S B).map onchainKey).dedup).length =
        (loadBatch onchainKey S B).length) ∧
    ((((mergePartition (some ex) g).map naturalKey).dedup).length =
      (mergePartition (some ex) g).length) ∧
    ((g2.map naturalKey).Nodup →
      (((mergePartition none g2).map naturalKey).dedup).length =
        (mergePartition none g2).length) := by
  refine ⟨?_, ?_, ?_⟩
  · intro h
    have hnd := keys_loadBatch_nodup onchainKey B S h
    rw [List.Nodup.dedup hnd, List.length_map]
  · have h1 := keys_dedupKeepFirstBy_nodup txKey (ex ++ g)
    have h2 : (((mergePartition (some ex) g).map naturalKey)).Nodup := by
      apply nodup_naturalKey_of_nodup_txKey
      exact h1
    rw [List.Nodup.dedup h2, List.length_map]
  · intro h
    have h2 : (((mergePartition none g2).map naturalKey)).Nodup := h
    rw [List.Nodup.dedup h2, List.length_map]

def freshTx : NormalizedTx :=
  { tx_hash := "0xsolo", log_index := none, contract_address := ""
    from_address := "0xf", to_address := "0xt", value := 7
    token_symbol := "ETH", token_decimal := 18
    block_timestamp := some 1700000100, chain := "eth"
    tx_type := "receive", side := "receive" }

theorem claim_C2_witness :
    ([rowA].map onchainKey).Nodup ∧
    ([freshTx].map naturalKey).Nodup ∧
    (((loadBatch onchainKey [rowA] [rowA2, rowB]).map onchainKey).dedup).length =
      (loadBatch onchainKey [rowA] [rowA2, rowB]).length ∧
    (((mergePartition (some [freshTx]) [dupTx]).map naturalKey).dedup).length =
      (mergePartition (some [freshTx]) [dupTx]).length ∧
    (((mergePartition none [freshTx]).map naturalKey).dedup).length =
      (mergePartition none [freshTx]).length := by
  have h := claim_C2_no_duplicate_keys [rowA] [rowA2, rowB] [freshTx] [dupTx] [freshTx]
  exact ⟨by decide, by decide, h.1 (by decide), h.2.1, h.2.2 (by decide)⟩

/-- Two rows with the same tx_hash: the stored (existing) one and a freshly
fetched replacement. -/
def oldRow : NormalizedTx :=
  { tx_hash := "0xc", log_index := none, contract_address := ""
    from_address := "0xf", to_address := "0xt", value := 1
    token_symbol := "ETH", token_decimal := 18
    block_timestamp := some 1700000000, chain := "eth"
    tx_type := "send", side := "send" }

def newRow : NormalizedTx :=
  { tx_hash := "0xc", log_index := none, contract_address := ""
    from_address := "0xf", to_address := "0xt", value := 2
    token_symbol := "ETH", token_decimal := 18
    block_timestamp := some 1700000000, chain := "eth"
    tx_type := "send", side := "send" }

/-- Claim C3 counterexample: merging a new row into an existing partition
that already holds a row with the same natural key keeps the EXISTING row
and discards the new one — pandas drop_duplicates keeps the first occurrence
and the existing rows come first in the concatenation, so the new row does
not win the conflict as the claim states. -/
theorem claim_C3_counterexample :
    naturalKey newRow = naturalKey oldRow ∧
    newRow ≠ oldRow ∧
    mergePartition (some [oldRow]) [newRow] = [oldRow] ∧
    newRow ∉ mergePartition (some [oldRow]) [newRow] := by
  refine ⟨by decide, by decide, by decide, by decide⟩

/-- Claim C3 (amended): for every run and period, when a stored partition
exists the result is the union of existing and new rows deduplicated by
tx_hash with the EXISTING row winning on a key conflict (the per-key lookup
of the merged partition equals the first match in existing-then-new order,
and equals the existing partition's match whenever one exists), with no
duplicate tx_hash remaining; when no partition exists it is created fresh
with exactly the new rows. -/
theorem claim_C3_partition_merge (ex g : List NormalizedTx) :
    (∀ k, findByKey txKey (mergePartition (some ex) g) k =
      findByKey txKey (ex ++ g) k) ∧
    (∀ k, (findByKey txKey ex k).isSome = true →
      findByKey txKey (mergePartition (some ex) g) k = findByKey txKey ex k) ∧
    (((mergePartition (some ex) g).map txKey).Nodup) ∧
    (mergePartition none g = g) := by
  refine ⟨?_, ?_, ?_, rfl⟩
  · intro k
    exact findByKey_dedupKeepFirstBy txKey (ex ++ g) k
  · intro k hk
    show findByKey txKey (dedupKeepFirstBy txKey (ex ++ g)) k = findByKey txKey ex k
    rw [findByKey_dedupKeepFirstBy txKey (ex ++ g) k, findByKey_append]
    rcases Option.isSome_iff_exists.mp hk with ⟨r, hr⟩
    rw [hr]
    rfl
  · exact keys_dedupKeepFirstBy_nodup txKey (ex ++ g)

theorem claim_C3_witness :
    (findByKey txKey [oldRow] "0xc").isSome = true ∧
    findByKey txKey (mergePartition (some [oldRow]) [newRow]) "0xc" =
      findByKey txKey [oldRow] "0xc" :=
  ⟨by decide, (claim_C3_partition_merge [oldRow] [newRow]).2.1 "0xc" (by decide)⟩

/-! ## Branch facts about the on-chain normalizer (shared helpers) -/

theorem normalizeTransaction_value_nonneg (resolve : String → String → TokenInfo)
    (tx : RawTx) : 0 ≤ (normalizeTransaction resolve tx).value := by
  unfold normalizeTransaction
  by_cases h : tx.cate_id = some "approve" ∨ tx.token_approve.isSome
  · rw [if_pos h]
    cases hta : tx.token_approve with
    | some ta => exact absOrZero_nonneg ta.value
    | none => exact le_refl 0
  · rw [if_neg h]
    cases hs : tx.sends with
    | cons a rest =>
        cases hr : tx.receives with
        | cons b rb => exact absOrZero_nonneg a.amount
        | nil => exact absOrZero_nonneg a.amount
    | nil =>
        cases hr : tx.receives with
        | cons b rb => exact absOrZero_nonneg b.amount
        | nil => exact le_refl 0

theorem normalizeTransaction_log_index (resolve : String → String → TokenInfo)
    (tx : RawTx) : (normalizeTransaction resolve tx).log_index = none := by
  unfold normalizeTransaction
  by_cases h : tx.cate_id = some "approve" ∨ tx.token_approve.isSome
  · rw [if_pos h]
    cases hta : tx.token_approve with
    | some ta => rfl
    | none => rfl
  · rw [if_neg h]
    cases hs : tx.sends with
    | cons a rest => cases hr : tx.receives with
      | cons b rb => rfl
      | nil => rfl
    | nil => cases hr : tx.receives with
      | cons b rb => rfl
      | nil => rfl

/-- Claim C4 inputs: a token resolver that uses the token id as its symbol,
and concrete raw transactions. -/
def resolveFixed : String → String → TokenInfo :=
  fun tid _ => { symbol := tid, name := "tok", decimals := 18 }

def legX : Leg := { token_id := "0xtokenx", amount := 5, to_addr := none, from_addr := none }

def legY : Leg := { token_id := "0xtokeny", amount := 3, to_addr := none, from_addr := none }

def txDepositHint : RawTx :=
  { id := "0xd1", time_at := 1700000000, cate_id := some "deposit", chain := "eth"
    sends := [legX], receives := [], token_approve := none
    tx_from := "0xf", tx_to := "0xt", is_scam := false }

def txSendOnly : RawTx :=
  { id := "0xd2", time_at := 1700000000, cate_id := none, chain := "eth"
    sends := [legX], receives := [], token_approve := none
    tx_from := "0xf", tx_to := "0xt", is_scam := false }

def txSwapBoth : RawTx :=
  { id := "0xd3", time_at := 1700000000, cate_id := none, chain := "eth"
    sends := [legX], receives := [legY], token_approve := none
    tx_from := "0xf", tx_to := "0xt", is_scam := false }

def txEmpty : RawTx :=
  { id := "0xd4", time_at := 1700000000, cate_id := none, chain := "eth"
    sends := [], receives := [], token_approve := none
    tx_from := "0xf", tx_to := "0xt", is_scam := false }

/-- Claim C4 counterexample: a raw record with only an outgoing leg but a
`cate_id` hint of "deposit" is normalized with action "deposit", not "send" —
the claim as stated (every only-outgoing record maps to send) fails on the
category-hint branch of `normalize_transaction`. -/
theorem claim_C4_counterexample :
    txDepositHint.sends = [legX] ∧ txDepositHint.receives = [] ∧
    txDepositHint.token_approve = none ∧
    (normalizeTransaction resolveFixed txDepositHint).side = "deposit" ∧
    (normalizeTransaction resolveFixed txDepositHint).side ≠ "send" := by
  refine ⟨rfl, rfl, rfl, by decide, by decide⟩

/-- Claim C4 (amended): for a raw record with no approval and whose category
hint is neither approve nor deposit, an outgoing leg and no incoming leg give
action send with the amount's absolute value and the first outgoing leg's
token; with both outgoing and incoming legs (no approval, hint not approve)
the action is swap keyed on the first outgoing leg; with neither legs nor an
approval (hint not approve) the action is unknown with zero amount. -/
theorem claim_C4_onchain_category (resolve : String → String → TokenInfo)
    (tx : RawTx) (s : Leg) :
    (tx.token_approve = none → tx.cate_id ≠ some "approve" →
      tx.cate_id ≠ some "deposit" → tx.sends.head? = some s → tx.receives = [] →
      ((normalizeTransaction resolve tx).side = "send" ∧
       (normalizeTransaction resolve tx).value = |s.amount| ∧
       (normalizeTransaction resolve tx).contract_address = s.token_id ∧
       (normalizeTransaction resolve tx).token_symbol =
         (resolveFields resolve tx.chain s.token_id).1)) ∧
    (tx.token_approve = none → tx.cate_id ≠ some "approve" →
      tx.sends.head? = some s → tx.receives ≠ [] →
      ((normalizeTransaction resolve tx).side = "swap" ∧
       (normalizeTransaction resolve tx).value = |s.amount| ∧
       (normalizeTransaction resolve tx).contract_address = s.token_id ∧
       (normalizeTransaction resolve tx).token_symbol =
         (resolveFields resolve tx.chain s.token_id).1)) ∧
    (tx.token_approve = none → tx.cate_id ≠ some "approve" →
      tx.sends = [] → tx.receives = [] →
      ((normalizeTransaction resolve tx).side = "unknown" ∧
       (normalizeTransaction resolve tx).value = 0)) := by
  have hcondOf : tx.token_approve = none → tx.cate_id ≠ some "approve" →
      ¬(tx.cate_id = some "approve" ∨ tx.token_approve.isSome) := by
    intro hta hca
    rw [hta]
    simp [hca]
  refine ⟨?_, ?_, ?_⟩
  · intro hta hca hcd hs hr
    cases hsends : tx.sends with
    | nil => rw [hsends] at hs; cases hs
    | cons a rest =>
        rw [hsends] at hs
        have ha : a = s := by simpa using hs
        subst ha
        unfold normalizeTransaction
        rw [if_neg (hcondOf hta hca), hsends, hr]
        refine ⟨by simp [hcd], ?_, rfl, rfl⟩
        exact absOrZero_eq_abs a.amount
  · intro hta hca hs hr
    cases hsends : tx.sends with
    | nil => rw [hsends] at hs; cases hs
    | cons a rest =>
        rw [hsends] at hs
        have ha : a = s := by simpa using hs
        subst ha
        cases hrecv : tx.receives with
        | nil => rw [hrecv] at hr; cases hr rfl
        | cons b rb =>
            unfold normalizeTransaction
            rw [if_neg (hcondOf hta hca), hsends, hrecv]
            exact ⟨rfl, absOrZero_eq_abs a.amount, rfl, rfl⟩
  · intro hta hca hs hr
    unfold normalizeTransaction
    rw [if_neg (hcondOf hta hca), hs, hr]
    exact ⟨rfl, rfl⟩

theorem claim_C4_witness :
    ((normalizeTransaction resolveFixed txSendOnly).side = "send" ∧
     (normalizeTransaction resolveFixed txSendOnly).value = |legX.amount| ∧
     (normalizeTransaction resolveFixed txSendOnly).contract_address = legX.token_id ∧
     (normalizeTransaction resolveFixed txSendOnly).token_symbol =
       (resolveFields resolveFixed txSendOnly.chain legX.token_id).1) ∧
    ((normalizeTransaction resolveFixed txSwapBoth).side = "swap" ∧
     (normalizeTransaction resolveFixed txSwapBoth).value = |legX.amount| ∧
     (normalizeTransaction resolveFixed txSwapBoth).contract_address = legX.token_id ∧
     (normalizeTransaction resolveFixed txSwapBoth).token_symbol =
       (resolveFields resolveFixed txSwapBoth.chain legX.token_id).1) ∧
    ((normalizeTransaction resolveFixed txEmpty).side = "unknown" ∧
     (normalizeTransaction resolveFixed txEmpty).value = 0) :=
  ⟨(claim_C4_onchain_category resolveFixed txSendOnly legX).1 rfl (by decide)
      (by decide) rfl rfl,
   (claim_C4_onchain_category resolveFixed txSwapBoth legX).2.1 rfl (by decide)
      rfl (by decide),
   (claim_C4_onchain_category resolveFixed txEmpty legX).2.2 rfl (by decide) rfl rfl⟩

/-- Claim C5: numeric timestamps above the 1e10 threshold are interpreted as
milliseconds (divided by 1000) and values at or below it as seconds, both
yielding a UTC instant; in particular 1700000000000 (ms) and 1700000000 (s)
normalize to the identical UTC instant. -/
theorem claim_C5_timestamp_normalization :
    (∀ t : ℚ, t > 10000000000 →
      normalizeNumericTimestamp t = UtcTimestamp.mk (t / 1000)) ∧
    (∀ t : ℚ, t ≤ 10000000000 →
      normalizeNumericTimestamp t = UtcTimestamp.mk t) ∧
    normalizeNumericTimestamp 1700000000000 = normalizeNumericTimestamp 1700000000 := by
  refine ⟨?_, ?_, ?_⟩
  · intro t h
    unfold normalizeNumericTimestamp
    rw [if_pos h]
  · intro t h
    unfold normalizeNumericTimestamp
    rw [if_neg (not_lt.mpr h)]
  · unfold normalizeNumericTimestamp
    rw [if_pos (by norm_num), if_neg (by norm_num)]
    norm_num

theorem claim_C5_witness :
    ((1700000000000 : ℚ) > 10000000000) ∧ ((1700000000 : ℚ) ≤ 10000000000) ∧
    normalizeNumericTimestamp 1700000000000 = UtcTimestamp.mk ((1700000000000 : ℚ) / 1000) ∧
    normalizeNumericTimestamp 1700000000 = UtcTimestamp.mk (1700000000 : ℚ) :=
  ⟨by norm_num, by norm_num,
   (claim_C5_timestamp_normalization).1 1700000000000 (by norm_num),
   (claim_C5_timestamp_normalization).2.1 1700000000 (by norm_num)⟩

/-- Claim C6: with sync tracking active, a missing watermark row yields the
configured global start timestamp, and an existing watermark row with
last_sync_at = t yields t minus exactly one hour (3600 seconds). -/
theorem claim_C6_watermark_lower_bound (startTs t : ℚ) :
    getLastSyncTimestamp startTs true true (Except.ok none) = startTs ∧
    getLastSyncTimestamp startTs true true (Except.ok (some (some t))) = t - 3600 := by
  constructor <;> rfl

/-- A trade with a negative source amount, showing the exchange normalizer
stores the sign. -/
def now0 : UtcTimestamp := ⟨1700000000⟩

def negTrade : RawTrade :=
  { id := "tn", order := "", timestamp := some 1700000000, symbol := "BTC/EUR"
    side := "sell", amount := some (-5), price := some 20000
    feeCurrency := none, feeCost := none, status := "ok" }

/-- Claim C7 counterexample: the exchange trade normalizer stores the source
amount unchanged — `normalize_amount` only coerces to float and takes no
absolute value — so a source record with amount -5 is stored with the
negative amount -5, contradicting the claim that every normalizer stores the
absolute value. -/
theorem claim_C7_counterexample :
    (normalizeTrade "kraken" now0 negTrade).amount = -5 ∧
    ¬ (0 ≤ (normalizeTrade "kraken" now0 negTrade).amount) := by
  constructor <;> decide

/-- Claim C7 (amended): the on-chain (DeBank) normalizer always stores a
non-negative amount (the absolute value of the source amount); the exchange
normalizers store the coerced source amount unchanged (0 when missing), so
their stored amount is non-negative only when the source amount is, and
direction is carried by the constant side field ("deposit"/"withdrawal") or
the verbatim trade side, never encoded by negating the amount. -/
theorem claim_C7_amount_policy (resolve : String → String → TokenInfo) (tx : RawTx)
    (ex c : String) (now : UtcTimestamp) (d w : RawTransfer) (t : RawTrade) :
    (0 ≤ (normalizeTransaction resolve tx).value) ∧
    ((normalizeDepositCoinbase ex c now d).amount = normalizeAmount d.amount ∧
     (normalizeDepositCoinbase ex c now d).side = "deposit") ∧
    ((normalizeWithdrawalCoinbase ex c now w).amount = normalizeAmount w.amount ∧
     (normalizeWithdrawalCoinbase ex c now w).side = "withdrawal") ∧
    ((normalizeTrade ex now t).amount = normalizeAmount t.amount ∧
     (normalizeTrade ex now t).side = t.side) :=
  ⟨normalizeTransaction_value_nonneg resolve tx, ⟨rfl, rfl⟩, ⟨rfl, rfl⟩, ⟨rfl, rfl⟩⟩

/-- Claim C8: when the watermark store is unavailable the run degrades to a
full-range fetch instead of failing — a failed connection at startup forces
incremental off, the watermark falls back to the configured start timestamp
(both on missing connection and on a raised query), and the per-chain
processing then normalizes every fetched (non-scam) transaction with no
watermark filtering, producing the full set of canonical records. -/
theorem claim_C8_graceful_degradation (startTs w : ℚ)
    (q : Except String (Option (Option ℚ))) (resolve : String → String → TokenInfo)
    (fs : Bool) (txs : List RawTx) :
    initIncremental true false = false ∧
    getLastSyncTimestamp startTs false (initIncremental true false) q = startTs ∧
    getLastSyncTimestamp startTs true true (Except.error "connection refused") = startTs ∧
    processChain resolve fs (initIncremental true false) w txs =
      (if fs then txs.filter (fun tx => !tx.is_scam) else txs).map
        (normalizeTransaction resolve) :=
  ⟨rfl, rfl, rfl, rfl⟩

theorem exportDepositsCoinbase_spec (ex : String) (now : UtcTimestamp)
    (fetch : String → Except String (List RawTransfer)) :
    ∀ (currencies : List String) (acc : List ExchangeRecord),
      currencies.foldl
        (fun acc c =>
          match fetch c with
          | .error _ => acc
          | .ok batch => acc ++ batch.map (normalizeDepositCoinbase ex c now))
        acc =
      acc ++ currencies.flatMap
        (fun c =>
          match fetch c with
          | .error _ => []
          | .ok batch => batch.map (normalizeDepositCoinbase ex c now)) := by
  intro currencies
  induction currencies with
  | nil => intro acc; simp
  | cons c rest ih =>
      intro acc
      rw [List.foldl_cons, List.flatMap_cons]
      cases hc : fetch c with
      | error e => rw [ih acc]; simp
      | ok batch => rw [ih (acc ++ batch.map (normalizeDepositCoinbase ex c now))]; simp

theorem exportWithdrawalsCoinbase_spec (ex : String) (now : UtcTimestamp)
    (fetch : String → Except String (List RawTransfer)) :
    ∀ (currencies : List String) (acc : List ExchangeRecord),
      currencies.foldl
        (fun acc c =>
          match fetch c with
          | .error _ => acc
          | .ok batch => acc ++ batch.map (normalizeWithdrawalCoinbase ex c now))
        acc =
      acc ++ currencies.flatMap
        (fun c =>
          match fetch c with
          | .error _ => []
          | .ok batch => batch.map (normalizeWithdrawalCoinbase ex c now)) := by
  intro currencies
  induction currencies with
  | nil => intro acc; simp
  | cons c rest ih =>
      intro acc
      rw [List.foldl_cons, List.flatMap_cons]
      cases hc : fetch c with
      | error e => rw [ih acc]; simp
      | ok batch => rw [ih (acc ++ batch.map (normalizeWithdrawalCoinbase ex c now))]; simp

/-- Claim C9: per-currency probing is non-fatal — whatever the fetch outcome
for the other currencies in the configured list (including failures), every
transfer successfully fetched for a currency in the list appears, normalized,
in the run's output, for both the deposit and the withdrawal exporters. -/
theorem claim_C9_currency_probe_nonfatal (ex : String) (now : UtcTimestamp)
    (fetchD fetchW : String → Except String (List RawTransfer))
    (currencies : List String) (c : String) (batchD batchW : List RawTransfer) :
    (c ∈ currencies → fetchD c = Except.ok batchD → ∀ d ∈ batchD,
      normalizeDepositCoinbase ex c now d ∈
        exportDepositsCoinbase ex now fetchD currencies) ∧
    (c ∈ currencies → fetchW c = Except.ok batchW → ∀ w ∈ batchW,
      normalizeWithdrawalCoinbase ex c now w ∈
        exportWithdrawalsCoinbase ex now fetchW currencies) := by
  constructor
  · intro hc hf d hd
    unfold exportDepositsCoinbase
    rw [exportDepositsCoinbase_spec ex now fetchD currencies []]
    rw [List.nil_append, List.mem_flatMap]
    refine ⟨c, hc, ?_⟩
    rw [hf]
    exact List.mem_map_of_mem _ hd
  · intro hc hf w hw
    unfold exportWithdrawalsCoinbase
    rw [exportWithdrawalsCoinbase_spec ex now fetchW currencies []]
    rw [List.nil_append, List.mem_flatMap]
    refine ⟨c, hc, ?_⟩
    rw [hf]
    exact List.mem_map_of_mem _ hw

def transferD : RawTransfer :=
  { id := "d1", timestamp := some 1700000000, currency := some "USD"
    amount := some 10, feeCurrency := none, feeCost := none
    address := "a", status := "ok" }

/-- A fetch collaborator where the first currency in the list fails. -/
def fetchWithFailure : String → Except String (List RawTransfer) :=
  fun c =>
    if c = "EUR" then Except.error "HTTP 500"
    else if c = "USD" then Except.ok [transferD]
    else Except.ok []

theorem claim_C9_witness :
    ("USD" ∈ ["EUR", "USD"]) ∧
    fetchWithFailure "USD" = Except.ok [transferD] ∧
    normalizeDepositCoinbase "coinbase" "USD" now0 transferD ∈
      exportDepositsCoinbase "coinbase" now0 fetchWithFailure ["EUR", "USD"] ∧
    normalizeWithdrawalCoinbase "coinbase" "USD" now0 transferD ∈
      exportWithdrawalsCoinbase "coinbase" now0 fetchWithFailure ["EUR", "USD"] :=
  ⟨by decide, rfl,
   (claim_C9_currency_probe_nonfatal "coinbase" now0 fetchWithFailure fetchWithFailure
      ["EUR", "USD"] "USD" [transferD] [transferD]).1 (by decide) rfl transferD
      (by decide),
   (claim_C9_currency_probe_nonfatal "coinbase" now0 fetchWithFailure fetchWithFailure
      ["EUR", "USD"] "USD" [transferD] [transferD]).2 (by decide) rfl transferD
      (by decide)⟩

/-- Claim C10: the on-chain normalizer always emits `log_index = None`, the
staging cleaner defaults it to 0, hence every stored DeBank row has
log_index 0 and, in the raw store, rows are pairwise distinguished by
(chain, tx_hash) alone — one DeBank transaction (one record per tx, however
many transfer legs it has) yields at most one stored record. -/
theorem claim_C10_log_index_degenerate (resolve : String → String → TokenInfo)
    (tx : RawTx) (S B : List OnchainRow) :
    ((normalizeTransaction resolve tx).log_index = none) ∧
    (cleanLogIndex none = 0) ∧
    ((toStoredRow (normalizeTransaction resolve tx)).log_index = 0) ∧
    ((S.map onchainKey).Nodup → (∀ r ∈ S, r.log_index = 0) →
      (∀ r ∈ B, r.log_index = 0) →
      (((loadBatch onchainKey S B).map (fun r => (r.chain, r.tx_hash))).Nodup)) := by
  refine ⟨normalizeTransaction_log_index resolve tx, rfl, ?_, ?_⟩
  · show cleanLogIndex (normalizeTransaction resolve tx).log_index = 0
    rw [normalizeTransaction_log_index resolve tx]
    rfl
  · intro hnd h0S h0B
    have hnd2 := keys_loadBatch_nodup onchainKey B S hnd
    have hall : ∀ r ∈ loadBatch onchainKey S B, r.log_index = 0 := by
      intro r hr
      rcases mem_loadBatch onchainKey B S r hr with h | h
      · exact h0S r h
      · exact h0B r h
    have heq : (loadBatch onchainKey S B).map onchainKey =
        ((loadBatch onchainKey S B).map (fun r => (r.chain, r.tx_hash))).map
          (fun p => (p.1, p.2, (0 : Int))) := by
      rw [List.map_map]
      apply List.map_congr_left
      intro r hr
      unfold onchainKey
      simp [hall r hr]
    rw [heq] at hnd2
    exact hnd2.of_map _

theorem claim_C10_witness :
    ([rowA].map onchainKey).Nodup ∧
    (∀ r ∈ [rowA], r.log_index = 0) ∧
    (∀ r ∈ [rowB], r.log_index = 0) ∧
    ((loadBatch onchainKey [rowA] [rowB]).map (fun r => (r.chain, r.tx_hash))).Nodup :=
  ⟨by decide, by decide, by decide,
   (claim_C10_log_index_degenerate resolveFixed txSendOnly [rowA] [rowB]).2.2.2
      (by decide) (by decide) (by decide)⟩

end CryptoBookKeeper
